import Mathlib

/-!
Verification of the icelolly/go-errors error-chain library.

This file gives a shallow embedding of the library's data model
(`Error` values, cause chains, field maps) and of its operations
(`New`, `Wrap`, `WithFields`, `Fields`, `Is`, `Message`, `Stack`,
`Fatal`, and the string formatter), translated from `errors.go` and
`utils.go`, and proves the specification's claims about them.

Modelling conventions:
* Go pointers and interface identity are modelled by a `Nat` id carried
  on every error value (the value's address); Go `==` on `error`
  interface values compares dynamic type and, for pointers, the address,
  which `errIdEq` mirrors by comparing constructors and ids.
* Go maps are modelled as association lists without duplicate keys;
  `mapGet` is map indexing, `mapSet` is map assignment, `mapPutAll`
  is the `for k, v := range src { dst[k] = v }` copy loop.
* A Go `panic` is modelled as the `Except.error` branch carrying the
  panic message (and, for `WithFields`, the receiver's state at the
  moment of the panic, since the receiver is mutated in place).
* Call-site capture (`updateCaller`, `runtime.Callers`) is modelled by
  an explicit `CallSite` parameter: the constructor is handed the
  caller/file/line that the runtime introspection would produce.
-/

namespace GoErrors

/-- Field values stored in an error's `Fields` map (Go `interface{}`
values). `str` models Go `string` values, `int` models any other
value; the library only ever inspects whether a value is a `string`
(for `WithFields` keys) or renders it with `%v`. -/
inductive GoVal where
  | str (s : String)
  | int (n : Int)
  deriving Repr, DecidableEq

/-- Whether a Go value's dynamic type is `string` (the `kvs[i].(string)`
type assertion in `WithFields`). -/
def GoVal.isStr : GoVal → Bool
  | .str _ => true
  | .int _ => false

/-- Rendering of a field value with `fmt.Sprintf` and the `%v` verb. -/
def GoVal.render : GoVal → String
  | .str s => s
  | .int n => toString n

/-- A Go `map[string]interface{}`, as an association list. Maps built by
the library never hold duplicate keys. -/
abbrev FieldMap := List (String × GoVal)

/-- Go map indexing `m[k]` (first matching entry). -/
def mapGet : FieldMap → String → Option GoVal
  | [], _ => none
  | (k', v) :: rest, k => if k = k' then some v else mapGet rest k

/-- Go map assignment `m[k] = v`: replace the entry for `k` if present,
otherwise add one. -/
def mapSet : FieldMap → String → GoVal → FieldMap
  | [], k, v => [(k, v)]
  | (k', v') :: rest, k, v =>
    if k = k' then (k, v) :: rest else (k', v') :: mapSet rest k v

/-- The Go copy loop `for k, v := range src { dst[k] = v }`. -/
def mapPutAll (dst src : FieldMap) : FieldMap :=
  src.foldl (fun d p => mapSet d p.1 p.2) dst

/-- The keys of a map are pairwise distinct; true of every map a Go
program can build, and an invariant of the library's merging code. -/
def NodupKeys (m : FieldMap) : Prop :=
  (m.map Prod.fst).Nodup

instance (m : FieldMap) : Decidable (NodupKeys m) := by
  unfold NodupKeys
  infer_instance

/-- A Go `error` interface value, as stored in a `Cause` slot or handed
to the utility functions.

`nodeE` is a `*errors.Error` node: its fields are, in order, the
pointer's address (`id`), the exported `Kind`, `Message`, `Cause` and
`Fields` struct fields, and the unexported `caller`, `file` and `line`
call-site fields captured at construction.

`foreignE` is any other (foreign) error value, identified by its
address and carrying the string its `Error()` method returns. -/
inductive Err where
  | nodeE (id : Nat) (kind message : String) (cause : Option Err)
      (fields : Option FieldMap) (caller file : String) (line : Nat)
  | foreignE (id : Nat) (message : String)

/-- Address (identity) of an error value. -/
def Err.idOf : Err → Nat
  | .nodeE i _ _ _ _ _ _ _ => i
  | .foreignE i _ => i

/-- The `Kind` field of a node (empty for a foreign error, which has no
kind). -/
def Err.kindOf : Err → String
  | .nodeE _ k _ _ _ _ _ _ => k
  | .foreignE _ _ => ""

/-- The `Message` field of a node; for a foreign error, the text its
`Error()` method returns. -/
def Err.messageOf : Err → String
  | .nodeE _ _ m _ _ _ _ _ => m
  | .foreignE _ m => m

/-- The `Cause` field of a node (`none` for a foreign error). -/
def Err.causeOf : Err → Option Err
  | .nodeE _ _ _ c _ _ _ _ => c
  | .foreignE _ _ => none

/-- The `Fields` map of a node (`none` models a nil map). -/
def Err.fieldsOf : Err → Option FieldMap
  | .nodeE _ _ _ _ fl _ _ _ => fl
  | .foreignE _ _ => none

/-- The captured `caller` of a node. -/
def Err.callerOf : Err → String
  | .nodeE _ _ _ _ _ cl _ _ => cl
  | .foreignE _ _ => ""

/-- The captured `file` of a node. -/
def Err.fileOf : Err → String
  | .nodeE _ _ _ _ _ _ f _ => f
  | .foreignE _ _ => ""

/-- The captured `line` of a node. -/
def Err.lineOf : Err → Nat
  | .nodeE _ _ _ _ _ _ _ l => l
  | .foreignE _ _ => 0

/-- Whether the dynamic type of the value is `*errors.Error` (the
`err.(*Error)` type assertion). -/
def Err.isNode : Err → Bool
  | .nodeE _ _ _ _ _ _ _ _ => true
  | .foreignE _ _ => false

/-- Go `==` between two non-nil `error` interface values: the dynamic
types must be identical and the pointers (addresses) equal. -/
def errIdEq : Err → Err → Bool
  | .nodeE i _ _ _ _ _ _ _, .nodeE j _ _ _ _ _ _ _ => i == j
  | .foreignE i _, .foreignE j _ => i == j
  | _, _ => false

/-- Go `==` between a nullable `Cause` slot and a candidate interface
value (`none` is the nil interface, equal only to nil). -/
def causeBeq : Option Err → Option Err → Bool
  | none, none => true
  | some a, some b => errIdEq a b
  | _, _ => false

/-- The `*Error` nodes of a cause chain in head-to-root order; traversal
stops at the first foreign (non-`*Error`) cause. -/
def chainNodes : Err → List Err
  | .foreignE _ _ => []
  | .nodeE i k m cause fl cl f l =>
    .nodeE i k m cause fl cl f l ::
      (match cause with
       | some c => chainNodes c
       | none => [])

/-- The messages stored along a chain: each node's `Message`, and the
`Error()` text of a terminating foreign error. -/
def allMsgs : Err → List String
  | .foreignE _ m => [m]
  | .nodeE _ _ m cause _ _ _ _ =>
    m :: (match cause with
          | some c => allMsgs c
          | none => [])

/-- The call-site data `updateCaller` captures through the Go runtime:
the calling function's name (package path stripped), source file and
line. -/
structure CallSite where
  caller : String
  file : String
  line : Nat
  deriving Repr, DecidableEq

/-- Install call-site data on a node (`updateCaller`). -/
def setCallSite (cs : CallSite) : Err → Err
  | .nodeE i k m c fl _ _ _ => .nodeE i k m c fl cs.caller cs.file cs.line
  | e => e

/-- A variadic `interface{}` argument to `New` / `newError` / `Wrap`,
classified the way the `switch v := arg.(type)` in `newError` does:
a `Kind` value, a `string`, a `*Error` (possibly a nil pointer), any
other `error` value, a `map[string]interface{}` literal, or a value of
any other, unrecognized type. -/
inductive Arg where
  | kindA (k : String)
  | strA (s : String)
  | nodeA (v : Option Err)
  | errA (id : Nat) (m : String)
  | mapA (f : FieldMap)
  | otherA

/-- The panic message of `newError` on an empty argument list. -/
def errMsgNoArgs : String := "errors: call to errors.New with no arguments"

/-- The panic message of `newError` on a nil `*Error` argument. -/
def errMsgNilWrap : String := "errors: attempted to wrap nil *Error"

/-- The panic message of `newError` on an argument of unknown type (the
Go message also interpolates the offending type and value with `%T` and
`%v`). -/
def errMsgBadType : String := "errors: bad call to errors.New: unknown type"

/-- The shallow copy `cv := *v` that `newError` takes of a `*Error`
argument before storing `&cv` as the cause: a fresh address (`copyId`)
holding the same struct fields, the `Fields` map included (maps are
references in Go, so the copy shares the original's map). -/
def shallowCopy (copyId : Nat) : Err → Err
  | .nodeE _ k m c fl cl f l => .nodeE copyId k m c fl cl f l
  | e => e

/-- One iteration of `newError`'s argument loop: dispatch one argument
by its dynamic type into the node under construction `e` (always a
node), or panic. -/
def applyArg (copyId : Nat) (e : Err) : Arg → Except String Err
  | .kindA k =>
    match e with
    | .nodeE i _ m c fl cl f l => .ok (.nodeE i k m c fl cl f l)
    | x => .ok x
  | .strA s =>
    match e with
    | .nodeE i k _ c fl cl f l => .ok (.nodeE i k s c fl cl f l)
    | x => .ok x
  | .nodeA none => .error errMsgNilWrap
  | .nodeA (some v) =>
    match e with
    | .nodeE i k m _ fl cl f l =>
      .ok (.nodeE i k m (some (shallowCopy copyId v)) fl cl f l)
    | x => .ok x
  | .errA j m' =>
    match e with
    | .nodeE i k m _ fl cl f l => .ok (.nodeE i k m (some (.foreignE j m')) fl cl f l)
    | x => .ok x
  | .mapA f' =>
    match e with
    | .nodeE i k m c _ cl f l => .ok (.nodeE i k m c (some f') cl f l)
    | x => .ok x
  | .otherA => .error errMsgBadType

/-- The `for _, arg := range args` loop of `newError`. -/
def buildArgs (copyId : Nat) (e : Err) : List Arg → Except String Err
  | [] => .ok e
  | a :: rest =>
    match applyArg copyId e a with
    | .error s => .error s
    | .ok e' => buildArgs copyId e' rest

/-- The `newError` constructor: panic on an empty argument list, else
start from `&Error{}` (a fresh node at address `selfId` with all fields
zero) and dispatch each argument in order. `copyId` is the address the
shallow copy of a `*Error` argument is placed at. -/
def newError (selfId copyId : Nat) (args : List Arg) : Except String Err :=
  if args.length = 0 then .error errMsgNoArgs
  else buildArgs copyId (.nodeE selfId "" "" none none "" "" 0) args

/-- The exported `New` constructor: `newError` followed by
`updateCaller`, whose runtime lookup is modelled by the explicit `cs`
parameter. -/
def New (selfId copyId : Nat) (cs : CallSite) (args : List Arg) : Except String Err :=
  (newError selfId copyId args).map (setCallSite cs)

/-- Re-embed an `error` interface value as a variadic argument (used
when `Wrap` appends its cause to the argument list): a node travels as
a non-nil `*Error`, anything else as a plain `error`. -/
def argOfErr : Err → Arg
  | .nodeE i k m c fl cl f l => .nodeA (some (.nodeE i k m c fl cl f l))
  | .foreignE i m => .errA i m

/-- The exported `Wrap` constructor: nil cause short-circuits to a nil
result (no node, no panic); otherwise the cause is appended to the
argument list and the call proceeds exactly like `New`. -/
def Wrap (selfId copyId : Nat) (cs : CallSite) (cause : Option Err) (args : List Arg) :
    Except String (Option Err) :=
  match cause with
  | none => .ok none
  | some c => (New selfId copyId cs (args ++ [argOfErr c])).map some

/-- The `WithField` method: lazily allocate the `Fields` map, then
assign. -/
def withFieldE (e : Err) (k : String) (v : GoVal) : Err :=
  match e with
  | .nodeE i kd m c fl cl f l => .nodeE i kd m c (some (mapSet (fl.getD []) k v)) cl f l
  | x => x

/-- The lazy allocation `if e.Fields == nil { e.Fields = make(...) }`
performed by `WithFields` before its loop. -/
def ensureFields (e : Err) : Err :=
  match e with
  | .nodeE i kd m c fl cl f l => .nodeE i kd m c (some (fl.getD [])) cl f l
  | x => x

/-- The panic message of `WithFields` on an odd argument count. -/
def errMsgOddCount (n : Nat) : String :=
  "errors: invalid argument count for WithFields, expected even number of fields, got " ++ toString n

/-- The panic message of `WithFields` on a non-string key at index `i`. -/
def errMsgBadKey (i : Nat) : String :=
  "errors: invalid type for key passed to WithFields at index " ++ toString i

/-- The `for i := 0; i < kvc; i += 2` loop of `WithFields`: assert the
key at the even index is a string (panicking otherwise, with the
receiver left as mutated so far), then assign the pair. `i` is the
index of the head of `kvs` in the original argument list. -/
def attachPairs (e : Err) (i : Nat) : List GoVal → Except (String × Err) Err
  | [] => .ok e
  | .str k :: v :: rest => attachPairs (withFieldE e k v) (i + 2) rest
  | _ :: _ :: _ => .error (errMsgBadKey i, e)
  | [_] => .ok e

/-- The `WithFields` method: panic on an odd argument count (before any
mutation), else allocate the map if absent and run the pair loop. A
panic (`Except.error`) carries the receiver's state at the moment of
the panic, because the method mutates the receiver in place. -/
def WithFields (e : Err) (kvs : List GoVal) : Except (String × Err) Err :=
  if kvs.length % 2 ≠ 0 then .error (errMsgOddCount kvs.length, e)
  else attachPairs (ensureFields e) 0 kvs

/-- The merge step at one node of `Fields`: given the already-merged
cause fields and the node's own `Fields` map, it mirrors the body of
the Go function — with merged cause fields present, allocate a fresh
map and copy them in, then overwrite with the node's own entries; with
none, return the node's own map itself (nil included) without
allocating. -/
def mergeFields : Option FieldMap → Option FieldMap → Option FieldMap
  | none, none => none
  | none, some f => some f
  | some cf, none => some (mapPutAll [] cf)
  | some cf, some f => some (mapPutAll (mapPutAll [] cf) f)

/-- `Fields` on a single error value known to be non-nil: gather the
cause's merged fields recursively, then merge this node's own entries
over them; a non-`*Error` value contributes nothing. Returns `none`
(a nil map) when neither this node nor its chain carries a fields
map. -/
def fieldsE : Err → Option FieldMap
  | .foreignE _ _ => none
  | .nodeE _ _ _ none fl _ _ _ => mergeFields none fl
  | .nodeE _ _ _ (some c) fl _ _ _ => mergeFields (fieldsE c) fl

/-- The exported `Fields` function: nil in, nil out. -/
def Fields : Option Err → Option FieldMap
  | none => none
  | some e => fieldsE e

/-- A candidate passed to `Is`, classified the way its
`switch val := k.(type)` does: a `Kind` value, a `string` value, or
anything else (`val` then keeps the static type `interface{}` of the
switch operand, so the original dynamic type decides all comparisons). -/
inductive IsArg where
  | kindA (k : String)
  | strA (s : String)
  | otherA (v : Option Err)

/-- One candidate check of `Is` at one node. In the `case Kind, string`
branch `val` has type `interface{}`, so `e.Kind == val` compares
dynamic types first: it is true only for a candidate of dynamic type
`Kind` with the same text — a `string` candidate never equals a `Kind`
field. In the `default` branch the candidate is compared with
`e.Cause == val`. -/
def isArgMatch (kind : String) (cause : Option Err) : IsArg → Bool
  | .kindA t => kind == t
  | .strA _ => false
  | .otherA v => causeBeq cause v

/-- `Is` on a single error value known to be non-nil: a non-`*Error`
value never matches; at a node every candidate is checked before
descending into the cause. -/
def isE : Err → List IsArg → Bool
  | .foreignE _ _, _ => false
  | .nodeE _ k _ cause _ _ _ _, kinds =>
    if kinds.any (isArgMatch k cause) then true
    else
      match cause with
      | some c => isE c kinds
      | none => false

/-- The exported `Is` function: nil error reports false. -/
def Is (err : Option Err) (kinds : List IsArg) : Bool :=
  match err with
  | none => false
  | some e => isE e kinds

/-- The fixed fallback text `Message` returns when no message is found. -/
def fallbackMsg : String :=
  "An internal error has occurred. Please contact technical support."

/-- `Message` on a single error value known to be non-nil: this node's
message if non-empty, else the cause's resolved message, else (also for
a non-`*Error` value) the fallback. -/
def messageE : Err → String
  | .foreignE _ _ => fallbackMsg
  | .nodeE _ _ m cause _ _ _ _ =>
    if m ≠ "" then m
    else
      match cause with
      | some c => messageE c
      | none => fallbackMsg

/-- The exported `Message` function: nil error yields the empty string. -/
def Message : Option Err → String
  | none => ""
  | some e => messageE e

/-- A frame of the serializable stack `Stack` produces. -/
structure StackFrame where
  kind : String
  message : String
  caller : String
  file : String
  line : Nat
  fields : Option FieldMap
  deriving Repr, DecidableEq

/-- The frame `Stack` builds for a `*Error` node. -/
def nodeFrame (e : Err) : StackFrame :=
  ⟨e.kindOf, e.messageOf, e.callerOf, e.fileOf, e.lineOf, e.fieldsOf⟩

/-- The frame `Stack` builds for a terminating foreign error: only the
`Error()` text, everything else zero. -/
def foreignFrame (m : String) : StackFrame :=
  ⟨"", m, "", "", 0, none⟩

/-- The building loop of `Stack` (the preceding size-computation loop
only pre-allocates the slice and does not affect the value): one frame
per `*Error` node, then one message-only frame and stop if a foreign
error is reached. -/
def stackE : Err → List StackFrame
  | .foreignE _ m => [foreignFrame m]
  | .nodeE i k m cause fl cl f l =>
    nodeFrame (.nodeE i k m cause fl cl f l) ::
      (match cause with
       | some c => stackE c
       | none => [])

/-- The exported `Stack` function: nil error yields an empty (never
nil) slice. -/
def Stack : Option Err → List StackFrame
  | none => []
  | some e => stackE e

/-- The message of the foreign error terminating a chain, if any. -/
def foreignRoot : Err → Option String
  | .foreignE _ m => some m
  | .nodeE _ _ _ cause _ _ _ _ =>
    match cause with
    | some c => foreignRoot c
    | none => none

/-- The `pad` helper of the formatter: append the padding only to a
non-empty buffer. -/
def padS (buf p : String) : String :=
  if buf.length > 0 then buf ++ p else buf

/-- The `With fields:` block the verbose formatter renders for a node:
nothing for a nil or empty map, else one line per key in sorted order. -/
def fieldsBlock : Option FieldMap → String
  | none => ""
  | some m =>
    if m.length > 0 then
      ((m.map Prod.fst).mergeSort (fun a b => a ≤ b)).foldl
        (fun b k => b ++ "    - \"" ++ k ++ "\": " ++ ((mapGet m k).getD (.str "")).render ++ "\n")
        "    With fields:\n"
    else ""

/-- The `Error` heading the verbose formatter writes for the head node. -/
def writeHeader (asStack isCause : Bool) (buf : String) : String :=
  if asStack ∧ ¬isCause then buf ++ "Error" else buf

/-- The `[caller]` block, omitted when the caller is empty. -/
def writeCaller (buf cl : String) : String :=
  if cl ≠ "" then padS buf ": " ++ "[" ++ cl ++ "]" else buf

/-- The message block, omitted when the message is empty. -/
def writeMessage (buf m : String) : String :=
  if m ≠ "" then padS buf ": " ++ m else buf

/-- The `(kind)` block, omitted when the kind is empty. -/
def writeKind (buf k : String) : String :=
  if k ≠ "" then padS buf " " ++ "(" ++ k ++ ")" else buf

/-- The file/line and fields lines, written only in verbose mode. -/
def writeStackInfo (asStack : Bool) (buf f : String) (l : Nat) (fl : Option FieldMap) : String :=
  if asStack then
    buf ++ "\n" ++ "    " ++ "File: \"" ++ f ++ "\", line " ++ toString l ++ "\n"
      ++ fieldsBlock fl
  else buf

/-- Everything `formatAccumulator` writes for one node before it turns
to the cause: heading, caller, message, kind, and (verbose) stack
info. -/
def selfBlock (asStack isCause : Bool) (buf k m : String) (fl : Option FieldMap)
    (cl f : String) (l : Nat) : String :=
  writeStackInfo asStack (writeKind (writeMessage (writeCaller (writeHeader asStack isCause buf) cl) m) k) f l fl

/-- The `Caused by` marker, written only in verbose mode. -/
def causedByMark (asStack : Bool) (b : String) : String :=
  if asStack then b ++ "Caused by" else b

/-- The recursive `formatAccumulator` of `*Error`: render this node's
caller, message and kind (each omitted when empty), in verbose
(`asStack`) mode also the file/line and fields block, then recurse into
a node cause or append a foreign cause's `Error()` text inline. Only
ever invoked on nodes; on a foreign value it returns the buffer
unchanged (unreachable from the API). -/
def formatAcc (asStack : Bool) : Bool → String → Err → String
  | _, buf, .foreignE _ _ => buf
  | isCause, buf, .nodeE _ k m cause fl cl f l =>
    match cause with
    | none => selfBlock asStack isCause buf k m fl cl f l
    | some c =>
      match c with
      | .foreignE _ cmsg =>
        padS (causedByMark asStack (selfBlock asStack isCause buf k m fl cl f l)) ": " ++ cmsg
      | .nodeE ci ck cm cc cfl ccl cf cln =>
        formatAcc asStack true
          (causedByMark asStack (selfBlock asStack isCause buf k m fl cl f l))
          (.nodeE ci ck cm cc cfl ccl cf cln)

/-- The `Error()` method: compact rendering of the whole chain. -/
def errorStr (e : Err) : String := formatAcc false false "" e

/-- The `%+v` rendering (`format(true)`): verbose multi-line stack. -/
def verboseStr (e : Err) : String := formatAcc true false "" e

/-- The exported `Fatal` function. A nil error returns without
panicking (`none`). Otherwise the error is wrapped in a fresh node
(`newError(err)` plus `updateCaller`); if the argument was itself a
`*Error` whose recorded call site coincides with the newly captured
one, the redundant wrapper is discarded in favour of the original node.
The result (`some payload`) is the panic payload: the resolved message
concatenated with the verbose rendering of the chain. -/
def Fatal (selfId copyId : Nat) (cs : CallSite) : Option Err → Option String
  | none => none
  | some e =>
    match newError selfId copyId [argOfErr e] with
    | .error s => some s
    | .ok w0 =>
      let wrapped0 := setCallSite cs w0
      let wrapped :=
        match e with
        | .nodeE i k m c fl cl f l =>
          if f = cs.file ∧ l = cs.line ∧ cl = cs.caller then .nodeE i k m c fl cl f l
          else wrapped0
        | .foreignE _ _ => wrapped0
      some ("fatal error: " ++ Message (some wrapped) ++ "\n\n" ++ verboseStr wrapped)

/-! ### Specification-side helpers for the claims -/

/-- Lookup through an optional (possibly nil) map. -/
def optGet : Option FieldMap → String → Option GoVal
  | none, _ => none
  | some m, k => mapGet m k

/-- The value the claims' precedence rule assigns to a key: walk the
chain from the head toward the root and return the first node's own
entry for the key. -/
def chainFirst : Err → String → Option GoVal
  | .foreignE _ _, _ => none
  | .nodeE _ _ _ cause fl _ _ _, k =>
    match mapGet (fl.getD []) k with
    | some v => some v
    | none =>
      match cause with
      | some c => chainFirst c k
      | none => none

/-- No node of the chain carries a fields map. -/
def noFieldMapsB (e : Err) : Bool :=
  (chainNodes e).all (fun n => n.fieldsOf.isNone)

/-- Every fields map attached along the chain has pairwise-distinct
keys — true of every chain a Go program can build, since Go maps cannot
hold a key twice. -/
def chainFieldsNodup (e : Err) : Prop :=
  ∀ n ∈ chainNodes e, NodupKeys (n.fieldsOf.getD [])

instance (e : Err) : Decidable (chainFieldsNodup e) := by
  unfold chainFieldsNodup
  infer_instance

/-! ### Chain induction -/

/-- Structural induction along a cause chain. -/
theorem err_chain_ind (P : Err → Prop)
    (hf : ∀ i m, P (.foreignE i m))
    (hn : ∀ i k m cause fl cl f l,
      (∀ c, cause = some c → P c) → P (.nodeE i k m cause fl cl f l)) :
    ∀ e, P e
  | .foreignE i m => hf i m
  | .nodeE i k m none fl cl f l => hn i k m none fl cl f l (fun _ hc => nomatch hc)
  | .nodeE i k m (some c) fl cl f l =>
    hn i k m (some c) fl cl f l (fun c' hc => by
      cases hc
      exact err_chain_ind P hf hn c)

/-! ### Map lemmas -/

theorem mapGet_some_mem {m : FieldMap} {k : String} {v : GoVal}
    (h : mapGet m k = some v) : k ∈ m.map Prod.fst := by
  induction m with
  | nil => simp [mapGet] at h
  | cons p rest ih =>
    obtain ⟨k1, v1⟩ := p
    by_cases hk : k = k1
    · simp [hk]
    · simp only [mapGet, if_neg hk] at h
      simp [ih h]

theorem mapGet_mapSet (m : FieldMap) (k' k : String) (v : GoVal) :
    mapGet (mapSet m k v) k' = if k' = k then some v else mapGet m k' := by
  induction m with
  | nil =>
    by_cases h : k' = k <;> simp [mapSet, mapGet, h]
  | cons p rest ih =>
    obtain ⟨k1, v1⟩ := p
    by_cases h1 : k = k1
    · subst h1
      by_cases h2 : k' = k <;> simp [mapSet, mapGet, h2]
    · by_cases h2 : k' = k1
      · subst h2
        have hne : k' ≠ k := fun h => h1 h.symm
        simp [mapSet, h1, mapGet, hne]
      · simp [mapSet, h1, mapGet, h2, ih]

theorem mapSet_head_eq (k : String) (v v1 : GoVal) (rest : FieldMap) :
    mapSet ((k, v1) :: rest) k v = (k, v) :: rest := by
  simp [mapSet]

theorem mapSet_head_ne {k k1 : String} (h1 : k ≠ k1) (v v1 : GoVal) (rest : FieldMap) :
    mapSet ((k1, v1) :: rest) k v = (k1, v1) :: mapSet rest k v := by
  simp [mapSet, h1]

theorem keys_mapSet_mem {m : FieldMap} {k a : String} {v : GoVal} :
    a ∈ (mapSet m k v).map Prod.fst → a ∈ m.map Prod.fst ∨ a = k := by
  induction m with
  | nil =>
    intro h
    simp [mapSet] at h
    exact Or.inr h
  | cons p rest ih =>
    obtain ⟨k1, v1⟩ := p
    intro h
    by_cases h1 : k = k1
    · subst h1
      rw [mapSet_head_eq] at h
      simp only [List.map_cons, List.mem_cons] at h
      rcases h with h | h
      · exact Or.inr h
      · exact Or.inl (by simp [h])
    · rw [mapSet_head_ne h1] at h
      simp only [List.map_cons, List.mem_cons] at h
      rcases h with h | h
      · exact Or.inl (by simp [h])
      · rcases ih h with h' | h'
        · exact Or.inl (by simp [h'])
        · exact Or.inr h'

theorem nodupKeys_mapSet {m : FieldMap} (k : String) (v : GoVal)
    (h : NodupKeys m) : NodupKeys (mapSet m k v) := by
  induction m with
  | nil => simp [mapSet, NodupKeys]
  | cons p rest ih =>
    obtain ⟨k1, v1⟩ := p
    unfold NodupKeys at h ⊢
    simp only [List.map_cons, List.nodup_cons] at h
    by_cases h1 : k = k1
    · subst h1
      rw [mapSet_head_eq]
      simp only [List.map_cons, List.nodup_cons]
      exact h
    · rw [mapSet_head_ne h1]
      simp only [List.map_cons, List.nodup_cons]
      refine ⟨fun hmem => ?_, ih h.2⟩
      rcases keys_mapSet_mem hmem with h' | h'
      · exact h.1 h'
      · exact h1 h'.symm

theorem mapPutAll_nil (d : FieldMap) : mapPutAll d [] = d := rfl

theorem mapPutAll_cons (d : FieldMap) (k : String) (v : GoVal) (s : FieldMap) :
    mapPutAll d ((k, v) :: s) = mapPutAll (mapSet d k v) s := rfl

theorem nodupKeys_mapPutAll (s : FieldMap) (d : FieldMap) (hd : NodupKeys d) :
    NodupKeys (mapPutAll d s) := by
  induction s generalizing d with
  | nil => exact hd
  | cons p rest ih =>
    obtain ⟨k1, v1⟩ := p
    rw [mapPutAll_cons]
    exact ih _ (nodupKeys_mapSet _ _ hd)

theorem mapGet_mapPutAll (s : FieldMap) (d : FieldMap) (hs : NodupKeys s) (k : String) :
    mapGet (mapPutAll d s) k =
      (match mapGet s k with
       | some v => some v
       | none => mapGet d k) := by
  induction s generalizing d with
  | nil => simp [mapPutAll_nil, mapGet]
  | cons p rest ih =>
    obtain ⟨k1, v1⟩ := p
    unfold NodupKeys at hs
    simp only [List.map_cons, List.nodup_cons] at hs
    rw [mapPutAll_cons, ih _ hs.2]
    by_cases hk : k = k1
    · subst hk
      have : mapGet rest k = none := by
        cases hg : mapGet rest k with
        | none => rfl
        | some w => exact absurd (mapGet_some_mem hg) hs.1
      simp [this, mapGet, mapGet_mapSet]
    · simp only [mapGet, if_neg hk]
      cases hg : mapGet rest k with
      | none => simp [mapGet_mapSet, hk]
      | some w => simp

/-! ### Chain lemmas -/

@[simp] theorem chainNodes_foreign (i : Nat) (m : String) :
    chainNodes (.foreignE i m) = [] := by
  simp [chainNodes]

@[simp] theorem chainNodes_node_none (i : Nat) (k m : String) (fl : Option FieldMap)
    (cl f : String) (l : Nat) :
    chainNodes (.nodeE i k m none fl cl f l) = [.nodeE i k m none fl cl f l] := by
  simp [chainNodes]

@[simp] theorem chainNodes_node_some (i : Nat) (k m : String) (c : Err)
    (fl : Option FieldMap) (cl f : String) (l : Nat) :
    chainNodes (.nodeE i k m (some c) fl cl f l) =
      .nodeE i k m (some c) fl cl f l :: chainNodes c := by
  simp [chainNodes]

theorem chainFieldsNodup_self {i : Nat} {k m : String} {cause : Option Err}
    {fl : Option FieldMap} {cl f : String} {l : Nat}
    (h : chainFieldsNodup (.nodeE i k m cause fl cl f l)) : NodupKeys (fl.getD []) := by
  have hmem : Err.nodeE i k m cause fl cl f l ∈ chainNodes (.nodeE i k m cause fl cl f l) := by
    cases cause <;> simp
  simpa [Err.fieldsOf] using h _ hmem

theorem chainFieldsNodup_cause {i : Nat} {k m : String} {c : Err}
    {fl : Option FieldMap} {cl f : String} {l : Nat}
    (h : chainFieldsNodup (.nodeE i k m (some c) fl cl f l)) : chainFieldsNodup c := by
  intro n hn
  exact h n (by simp [hn])

/-! ### `Fields` lemmas -/

@[simp] theorem fieldsE_foreign (i : Nat) (m : String) :
    fieldsE (.foreignE i m) = none := by
  simp [fieldsE]

theorem fieldsE_node_none (i : Nat) (k m : String)
    (fl : Option FieldMap) (cl f : String) (l : Nat) :
    fieldsE (.nodeE i k m none fl cl f l) = mergeFields none fl := by
  simp [fieldsE]

theorem fieldsE_node_some (i : Nat) (k m : String) (c : Err)
    (fl : Option FieldMap) (cl f : String) (l : Nat) :
    fieldsE (.nodeE i k m (some c) fl cl f l) = mergeFields (fieldsE c) fl := by
  simp [fieldsE]

theorem fieldsE_nodup (e : Err) (h : chainFieldsNodup e) :
    ∀ m, fieldsE e = some m → NodupKeys m := by
  cases e with
  | foreignE i m => intro m' hm'; simp at hm'
  | nodeE i k m cause fl cl f l =>
    intro m' hm'
    have hs : NodupKeys (fl.getD []) := chainFieldsNodup_self h
    cases cause with
    | none =>
      rw [fieldsE_node_none] at hm'
      cases fl with
      | none => simp [mergeFields] at hm'
      | some fm =>
        simp [mergeFields] at hm'
        subst hm'
        simpa using hs
    | some c =>
      rw [fieldsE_node_some] at hm'
      cases hcf : fieldsE c with
      | none =>
        rw [hcf] at hm'
        cases fl with
        | none => simp [mergeFields] at hm'
        | some fm =>
          simp [mergeFields] at hm'
          subst hm'
          simpa using hs
      | some cf =>
        rw [hcf] at hm'
        cases fl with
        | none =>
          simp [mergeFields] at hm'
          subst hm'
          exact nodupKeys_mapPutAll cf [] (by simp [NodupKeys])
        | some fm =>
          simp [mergeFields] at hm'
          subst hm'
          exact nodupKeys_mapPutAll fm _ (nodupKeys_mapPutAll cf [] (by simp [NodupKeys]))

theorem fieldsE_lookup (e : Err) :
    chainFieldsNodup e → ∀ k, optGet (fieldsE e) k = chainFirst e k := by
  induction e using err_chain_ind with
  | hf i m => intro _ k; simp [optGet, chainFirst]
  | hn i k m cause fl cl f l ih =>
    intro hnd kq
    have hs : NodupKeys (fl.getD []) := chainFieldsNodup_self hnd
    cases cause with
    | none =>
      cases fl with
      | none => simp [fieldsE_node_none, mergeFields, optGet, chainFirst, mapGet]
      | some fm =>
        simp only [fieldsE_node_none, mergeFields, optGet, chainFirst, Option.getD]
        cases hg : mapGet fm kq <;> simp [hg]
    | some c =>
      have hndc : chainFieldsNodup c := chainFieldsNodup_cause hnd
      have ihc := ih c rfl hndc
      cases hcf : fieldsE c with
      | none =>
        have hcc : chainFirst c kq = none := by
          have h0 := ihc kq
          rw [hcf] at h0
          have h1 : (none : Option GoVal) = chainFirst c kq := by simpa [optGet] using h0
          exact h1.symm
        cases fl with
        | none => simp [fieldsE_node_some, hcf, mergeFields, optGet, chainFirst, mapGet, hcc]
        | some fm =>
          simp only [fieldsE_node_some, hcf, mergeFields, optGet, chainFirst, Option.getD]
          cases hg : mapGet fm kq <;> simp [hg, hcc]
      | some cf =>
        have hcfnd : NodupKeys cf := fieldsE_nodup c hndc cf hcf
        have hbase : ∀ q, mapGet (mapPutAll [] cf) q = mapGet cf q := by
          intro q
          rw [mapGet_mapPutAll cf [] hcfnd q]
          cases hq : mapGet cf q <;> simp [mapGet]
        have hcc : ∀ q, mapGet cf q = chainFirst c q := by
          intro q
          have h0 := ihc q
          rw [hcf] at h0
          simpa [optGet] using h0
        cases fl with
        | none =>
          simp only [fieldsE_node_some, hcf, mergeFields, optGet, chainFirst, Option.getD, mapGet]
          rw [hbase, hcc]
        | some fm =>
          have hfm : NodupKeys fm := by simpa using hs
          simp only [fieldsE_node_some, hcf, mergeFields, optGet, chainFirst, Option.getD]
          rw [mapGet_mapPutAll fm _ hfm kq]
          cases hg : mapGet fm kq with
          | none => simp [hg, hbase, hcc]
          | some w => simp [hg]

theorem fieldsE_none_iff (e : Err) :
    fieldsE e = none ↔ noFieldMapsB e = true := by
  induction e using err_chain_ind with
  | hf i m => simp [noFieldMapsB]
  | hn i k m cause fl cl f l ih =>
    cases cause with
    | none =>
      cases fl with
      | none => simp [fieldsE_node_none, mergeFields, noFieldMapsB, Err.fieldsOf]
      | some fm => simp [fieldsE_node_none, mergeFields, noFieldMapsB, Err.fieldsOf]
    | some c =>
      have ihc := ih c rfl
      have hnf : noFieldMapsB (.nodeE i k m (some c) fl cl f l)
          = (fl.isNone && noFieldMapsB c) := by
        simp [noFieldMapsB, Err.fieldsOf]
      rw [fieldsE_node_some, hnf]
      cases hcf : fieldsE c with
      | none =>
        have hc : noFieldMapsB c = true := ihc.mp hcf
        cases fl with
        | none => simp [mergeFields, hc]
        | some fm => simp [mergeFields, hc]
      | some cf =>
        have hc : noFieldMapsB c = false := by
          cases hb : noFieldMapsB c
          · rfl
          · exact absurd (ihc.mpr hb) (by simp [hcf])
        cases fl with
        | none => simp [mergeFields, hc]
        | some fm => simp [mergeFields, hc]

/-! ### `Is` lemmas -/

theorem isArgMatch_iff (k : String) (cause : Option Err) (a : IsArg) :
    isArgMatch k cause a = true ↔
      ((∃ t, a = .kindA t ∧ k = t) ∨ (∃ v, a = .otherA v ∧ causeBeq cause v = true)) := by
  cases a with
  | kindA t => simp [isArgMatch]
  | strA s => simp [isArgMatch]
  | otherA v => simp [isArgMatch]

@[simp] theorem isE_foreign (i : Nat) (m : String) (args : List IsArg) :
    isE (.foreignE i m) args = false := by
  simp [isE]

theorem isE_node_none (i : Nat) (k m : String) (fl : Option FieldMap)
    (cl f : String) (l : Nat) (args : List IsArg) :
    isE (.nodeE i k m none fl cl f l) args = args.any (isArgMatch k none) := by
  cases h : args.any (isArgMatch k none) <;> simp [isE, h]

theorem isE_node_some (i : Nat) (k m : String) (c : Err) (fl : Option FieldMap)
    (cl f : String) (l : Nat) (args : List IsArg) :
    isE (.nodeE i k m (some c) fl cl f l) args =
      (args.any (isArgMatch k (some c)) || isE c args) := by
  cases h : args.any (isArgMatch k (some c)) <;> simp [isE, h]

theorem isE_iff (e : Err) (args : List IsArg) :
    isE e args = true ↔
      ∃ n ∈ chainNodes e, ∃ a ∈ args,
        ((∃ t, a = IsArg.kindA t ∧ n.kindOf = t) ∨
         (∃ v, a = IsArg.otherA v ∧ causeBeq n.causeOf v = true)) := by
  induction e using err_chain_ind with
  | hf i m => simp
  | hn i k m cause fl cl f l ih =>
    cases cause with
    | none =>
      rw [isE_node_none, List.any_eq_true]
      constructor
      · rintro ⟨a, ha, hma⟩
        exact ⟨.nodeE i k m none fl cl f l, by simp, a, ha,
          by simpa [Err.kindOf, Err.causeOf] using (isArgMatch_iff k none a).mp hma⟩
      · rintro ⟨n, hn, a, ha, hmatch⟩
        simp only [chainNodes_node_none, List.mem_singleton] at hn
        subst hn
        exact ⟨a, ha, (isArgMatch_iff k none a).mpr
          (by simpa [Err.kindOf, Err.causeOf] using hmatch)⟩
    | some c =>
      rw [isE_node_some, Bool.or_eq_true, List.any_eq_true, ih c rfl]
      constructor
      · rintro (⟨a, ha, hma⟩ | ⟨n, hn, rest⟩)
        · exact ⟨.nodeE i k m (some c) fl cl f l, by simp, a, ha,
            by simpa [Err.kindOf, Err.causeOf] using (isArgMatch_iff k (some c) a).mp hma⟩
        · exact ⟨n, by simp [hn], rest⟩
      · rintro ⟨n, hn, a, ha, hmatch⟩
        rcases List.mem_cons.mp (by simpa using hn) with hh | hh
        · subst hh
          exact Or.inl ⟨a, ha, (isArgMatch_iff k (some c) a).mpr
            (by simpa [Err.kindOf, Err.causeOf] using hmatch)⟩
        · exact Or.inr ⟨n, hh, a, ha, hmatch⟩

/-! ### `Message` lemmas -/

@[simp] theorem messageE_foreign (i : Nat) (m : String) :
    messageE (.foreignE i m) = fallbackMsg := by
  simp [messageE]

theorem messageE_node_none (i : Nat) (k m : String) (fl : Option FieldMap)
    (cl f : String) (l : Nat) :
    messageE (.nodeE i k m none fl cl f l) = (if m ≠ "" then m else fallbackMsg) := by
  simp [messageE]

theorem messageE_node_some (i : Nat) (k m : String) (c : Err) (fl : Option FieldMap)
    (cl f : String) (l : Nat) :
    messageE (.nodeE i k m (some c) fl cl f l) = (if m ≠ "" then m else messageE c) := by
  simp [messageE]

theorem messageE_spec (e : Err) :
    messageE e =
      (((chainNodes e).map Err.messageOf).find? (fun s => s != "")).getD fallbackMsg := by
  induction e using err_chain_ind with
  | hf i m => simp
  | hn i k m cause fl cl f l ih =>
    by_cases hm : m = ""
    · subst hm
      have hp : (("" != "") = false) := by decide
      cases cause with
      | none =>
        rw [messageE_node_none, if_neg (by simp)]
        simp [Err.messageOf, List.find?, hp]
      | some c =>
        rw [messageE_node_some, if_neg (by simp), ih c rfl]
        simp [Err.messageOf, List.find?, hp]
    · have hp : ((m != "") = true) := by simpa using hm
      cases cause with
      | none =>
        rw [messageE_node_none, if_pos hm]
        simp [Err.messageOf, List.find?, hp]
      | some c =>
        rw [messageE_node_some, if_pos hm]
        simp [Err.messageOf, List.find?, hp]

/-! ### `Stack` lemmas -/

@[simp] theorem stackE_foreign (i : Nat) (m : String) :
    stackE (.foreignE i m) = [foreignFrame m] := by
  simp [stackE]

theorem stackE_spec (e : Err) :
    stackE e =
      (chainNodes e).map nodeFrame ++
        (match foreignRoot e with
         | some m => [foreignFrame m]
         | none => []) := by
  induction e using err_chain_ind with
  | hf i m => simp [foreignRoot]
  | hn i k m cause fl cl f l ih =>
    cases cause with
    | none => simp [stackE, foreignRoot]
    | some c =>
      have hfr : foreignRoot (.nodeE i k m (some c) fl cl f l) = foreignRoot c := by
        simp [foreignRoot]
      rw [hfr]
      have hst : stackE (.nodeE i k m (some c) fl cl f l)
          = nodeFrame (.nodeE i k m (some c) fl cl f l) :: stackE c := by
        simp [stackE]
      rw [hst, ih c rfl]
      simp

/-! ### Constructor panic lemmas -/

/-- Whether a modelled computation panicked. -/
def isErrorB {E A : Type} : Except E A → Bool
  | .error _ => true
  | .ok _ => false

@[simp] theorem isErrorB_ok {E A : Type} (x : A) :
    isErrorB (Except.ok x : Except E A) = false := rfl

@[simp] theorem isErrorB_error {E A : Type} (s : E) :
    isErrorB (Except.error s : Except E A) = true := rfl

/-- The two argument shapes on which the `newError` dispatch loop
panics: an unrecognized type, or a nil `*Error`. -/
def badArg (a : Arg) : Prop :=
  a = Arg.otherA ∨ a = Arg.nodeA none

theorem applyArg_ok (c : Nat) (e : Err) (a : Arg) (h : ¬ badArg a) :
    ∃ e', applyArg c e a = .ok e' := by
  cases a with
  | kindA k => cases e <;> exact ⟨_, rfl⟩
  | strA s => cases e <;> exact ⟨_, rfl⟩
  | nodeA v =>
    cases v with
    | none => exact absurd (Or.inr rfl) h
    | some w => cases e <;> exact ⟨_, rfl⟩
  | errA i m => cases e <;> exact ⟨_, rfl⟩
  | mapA f => cases e <;> exact ⟨_, rfl⟩
  | otherA => exact absurd (Or.inl rfl) h

theorem applyArg_bad (c : Nat) (e : Err) (a : Arg) (h : badArg a) :
    isErrorB (applyArg c e a) = true := by
  rcases h with h | h <;> subst h <;> rfl

theorem buildArgs_isError_iff (c : Nat) (args : List Arg) :
    ∀ e, isErrorB (buildArgs c e args) = true ↔ ∃ a ∈ args, badArg a := by
  induction args with
  | nil => intro e; simp [buildArgs]
  | cons a rest ih =>
    intro e
    by_cases hbad : badArg a
    · have herr := applyArg_bad c e a hbad
      cases happ : applyArg c e a with
      | ok e' => rw [happ] at herr; simp at herr
      | error s =>
        simp only [buildArgs, happ]
        exact iff_of_true rfl ⟨a, List.mem_cons_self a rest, hbad⟩
    · obtain ⟨e', he'⟩ := applyArg_ok c e a hbad
      simp only [buildArgs, he']
      rw [ih e']
      constructor
      · rintro ⟨b, hb, hbb⟩
        exact ⟨b, by simp [hb], hbb⟩
      · rintro ⟨b, hb, hbb⟩
        rcases List.mem_cons.mp hb with hh | hh
        · subst hh; exact absurd hbb hbad
        · exact ⟨b, hh, hbb⟩

theorem newError_isError_iff (s c : Nat) (args : List Arg) :
    isErrorB (newError s c args) = true ↔
      (args = [] ∨ ∃ a ∈ args, badArg a) := by
  by_cases h : args.length = 0
  · have hnil : args = [] := List.length_eq_zero.mp h
    subst hnil
    simp [newError]
  · have hne : args ≠ [] := fun hh => h (by simp [hh])
    simp only [newError, if_neg h]
    rw [buildArgs_isError_iff]
    simp [hne]

/-! ### `WithFields` panic lemmas -/

theorem attachPairs_isError_iff :
    ∀ (kvs : List GoVal), kvs.length % 2 = 0 → ∀ (e : Err) (i : Nat),
      (isErrorB (attachPairs e i kvs) = true ↔
        ∃ j, j < kvs.length ∧ j % 2 = 0 ∧ (kvs.getD j (GoVal.str "")).isStr = false)
  | [] => by
    intro _ e i
    simp [attachPairs]
  | [x] => by
    intro h
    simp at h
  | k :: v :: rest => by
    intro h e i
    have hr : rest.length % 2 = 0 := by
      have h2 := h
      simp only [List.length_cons] at h2
      omega
    cases k with
    | str s =>
      have hred : attachPairs e i (GoVal.str s :: v :: rest)
          = attachPairs (withFieldE e s v) (i + 2) rest := by
        simp [attachPairs]
      rw [hred, attachPairs_isError_iff rest hr (withFieldE e s v) (i + 2)]
      constructor
      · rintro ⟨j, hj, hje, hjs⟩
        refine ⟨j + 2, ?_, ?_, ?_⟩
        · simpa [List.length_cons] using Nat.add_lt_add_right hj 2
        · omega
        · simpa [List.getD_cons_succ] using hjs
      · rintro ⟨j, hj, hje, hjs⟩
        match j, hje, hjs with
        | 0, _, hjs => simp [List.getD_cons_zero, GoVal.isStr] at hjs
        | Nat.succ 0, hje, _ => simp at hje
        | Nat.succ (Nat.succ j), hje, hjs =>
          refine ⟨j, ?_, ?_, ?_⟩
          · simpa [List.length_cons] using hj
          · omega
          · simpa [List.getD_cons_succ] using hjs
    | int n =>
      have hred : attachPairs e i (GoVal.int n :: v :: rest)
          = .error (errMsgBadKey i, e) := by
        simp [attachPairs]
      rw [hred]
      refine iff_of_true rfl ⟨0, by simp, by simp, by simp [GoVal.isStr]⟩

theorem withFields_isError_iff (e : Err) (kvs : List GoVal) :
    isErrorB (WithFields e kvs) = true ↔
      (kvs.length % 2 = 1 ∨
       ∃ j, j < kvs.length ∧ j % 2 = 0 ∧ (kvs.getD j (GoVal.str "")).isStr = false) := by
  by_cases h : kvs.length % 2 = 0
  · have h1 : ¬ kvs.length % 2 = 1 := by omega
    simp only [WithFields]
    rw [if_neg (fun hc => hc h)]
    rw [attachPairs_isError_iff kvs h (ensureFields e) 0]
    simp [h1]
  · have h1 : kvs.length % 2 = 1 := by omega
    simp only [WithFields]
    rw [if_pos h]
    simp [h1]

/-! ### Substring machinery for the panic payload -/

/-- `needle` occurs contiguously inside `hay`. -/
def containsStr (hay needle : String) : Prop :=
  ∃ p q : List Char, hay.data = p ++ needle.data ++ q

theorem data_append (a b : String) : (a ++ b).data = a.data ++ b.data := rfl

theorem containsStr_empty (s : String) : containsStr s "" :=
  ⟨s.data, [], by simp⟩

theorem containsStr_append_left {a n : String} (b : String) (h : containsStr a n) :
    containsStr (a ++ b) n := by
  obtain ⟨p, q, hpq⟩ := h
  refine ⟨p, q ++ b.data, ?_⟩
  rw [data_append, hpq]
  simp

theorem containsStr_append_right {b n : String} (a : String) (h : containsStr b n) :
    containsStr (a ++ b) n := by
  obtain ⟨p, q, hpq⟩ := h
  refine ⟨a.data ++ p, q, ?_⟩
  rw [data_append, hpq]
  simp

theorem containsStr_append_self (a n : String) : containsStr (a ++ n) n :=
  ⟨a.data, [], by simp [data_append]⟩

/-- `b` is `a` with more text appended. -/
def bufExt (a b : String) : Prop := ∃ t, b = a ++ t

theorem bufExt_refl (a : String) : bufExt a a :=
  ⟨"", by apply String.ext; simp [data_append]⟩

theorem bufExt_append (a t : String) : bufExt a (a ++ t) := ⟨t, rfl⟩

theorem bufExt_trans {a b c : String} (h1 : bufExt a b) (h2 : bufExt b c) : bufExt a c := by
  obtain ⟨t, ht⟩ := h1
  obtain ⟨u, hu⟩ := h2
  refine ⟨t ++ u, ?_⟩
  rw [hu, ht]
  apply String.ext
  simp [data_append]

theorem bufExt_contains {a b n : String} (hab : bufExt a b) (h : containsStr a n) :
    containsStr b n := by
  obtain ⟨t, ht⟩ := hab
  rw [ht]
  exact containsStr_append_left t h

/-! ### Formatter lemmas -/

theorem padS_ext (buf p : String) : bufExt buf (padS buf p) := by
  unfold padS
  by_cases h : buf.length > 0
  · rw [if_pos h]; exact bufExt_append buf p
  · rw [if_neg h]; exact bufExt_refl buf

theorem writeHeader_ext (a ic : Bool) (buf : String) : bufExt buf (writeHeader a ic buf) := by
  unfold writeHeader
  by_cases h : a = true ∧ ¬ic = true
  · rw [if_pos h]; exact bufExt_append _ _
  · rw [if_neg h]; exact bufExt_refl buf

theorem writeCaller_ext (buf cl : String) : bufExt buf (writeCaller buf cl) := by
  unfold writeCaller
  by_cases h : cl ≠ ""
  · rw [if_pos h]
    exact bufExt_trans (padS_ext buf ": ") (bufExt_trans (bufExt_append _ "[")
      (bufExt_trans (bufExt_append _ cl) (bufExt_append _ "]")))
  · rw [if_neg h]; exact bufExt_refl buf

theorem writeMessage_ext (buf m : String) : bufExt buf (writeMessage buf m) := by
  unfold writeMessage
  by_cases h : m ≠ ""
  · rw [if_pos h]; exact bufExt_trans (padS_ext buf ": ") (bufExt_append _ _)
  · rw [if_neg h]; exact bufExt_refl buf

theorem writeKind_ext (buf k : String) : bufExt buf (writeKind buf k) := by
  unfold writeKind
  by_cases h : k ≠ ""
  · rw [if_pos h]
    exact bufExt_trans (padS_ext buf " ") (bufExt_trans (bufExt_append _ "(")
      (bufExt_trans (bufExt_append _ k) (bufExt_append _ ")")))
  · rw [if_neg h]; exact bufExt_refl buf

theorem writeStackInfo_ext (a : Bool) (buf f : String) (l : Nat) (fl : Option FieldMap) :
    bufExt buf (writeStackInfo a buf f l fl) := by
  unfold writeStackInfo
  by_cases h : a = true
  · rw [if_pos h]
    exact bufExt_trans (bufExt_append _ _) (bufExt_trans (bufExt_append _ _)
      (bufExt_trans (bufExt_append _ _) (bufExt_trans (bufExt_append _ _)
      (bufExt_trans (bufExt_append _ _) (bufExt_trans (bufExt_append _ _)
      (bufExt_trans (bufExt_append _ _) (bufExt_append _ _)))))))
  · rw [if_neg h]; exact bufExt_refl buf

theorem selfBlock_ext (a ic : Bool) (buf k m : String) (fl : Option FieldMap)
    (cl f : String) (l : Nat) : bufExt buf (selfBlock a ic buf k m fl cl f l) := by
  unfold selfBlock
  exact bufExt_trans (writeHeader_ext a ic buf)
    (bufExt_trans (writeCaller_ext _ cl)
      (bufExt_trans (writeMessage_ext _ m)
        (bufExt_trans (writeKind_ext _ k) (writeStackInfo_ext a _ f l fl))))

theorem causedByMark_ext (a : Bool) (b : String) : bufExt b (causedByMark a b) := by
  unfold causedByMark
  by_cases h : a = true
  · rw [if_pos h]; exact bufExt_append _ _
  · rw [if_neg h]; exact bufExt_refl b

theorem selfBlock_contains_message (a ic : Bool) (buf k m : String) (fl : Option FieldMap)
    (cl f : String) (l : Nat) : containsStr (selfBlock a ic buf k m fl cl f l) m := by
  by_cases hm : m = ""
  · subst hm; exact containsStr_empty _
  · unfold selfBlock
    have h2 : containsStr (writeMessage (writeCaller (writeHeader a ic buf) cl) m) m := by
      unfold writeMessage
      rw [if_pos hm]
      exact containsStr_append_self _ m
    exact bufExt_contains (bufExt_trans (writeKind_ext _ k) (writeStackInfo_ext a _ f l fl)) h2

@[simp] theorem formatAcc_foreign (a ic : Bool) (buf : String) (i : Nat) (m : String) :
    formatAcc a ic buf (.foreignE i m) = buf := by
  simp [formatAcc]

theorem formatAcc_node_none (a ic : Bool) (buf : String) (i : Nat) (k m : String)
    (fl : Option FieldMap) (cl f : String) (l : Nat) :
    formatAcc a ic buf (.nodeE i k m none fl cl f l) = selfBlock a ic buf k m fl cl f l := by
  simp [formatAcc]

theorem formatAcc_node_causeForeign (a ic : Bool) (buf : String) (i : Nat) (k m : String)
    (j : Nat) (cmsg : String) (fl : Option FieldMap) (cl f : String) (l : Nat) :
    formatAcc a ic buf (.nodeE i k m (some (.foreignE j cmsg)) fl cl f l) =
      padS (causedByMark a (selfBlock a ic buf k m fl cl f l)) ": " ++ cmsg := by
  simp [formatAcc]

theorem formatAcc_node_causeNode (a ic : Bool) (buf : String) (i : Nat) (k m : String)
    (ci : Nat) (ck cm : String) (cc : Option Err) (cfl : Option FieldMap)
    (ccl cf : String) (cln : Nat) (fl : Option FieldMap) (cl f : String) (l : Nat) :
    formatAcc a ic buf (.nodeE i k m (some (.nodeE ci ck cm cc cfl ccl cf cln)) fl cl f l) =
      formatAcc a true (causedByMark a (selfBlock a ic buf k m fl cl f l))
        (.nodeE ci ck cm cc cfl ccl cf cln) := by
  simp [formatAcc]

theorem formatAcc_ext (a : Bool) (e : Err) : ∀ (ic : Bool) (buf : String),
    bufExt buf (formatAcc a ic buf e) := by
  induction e using err_chain_ind with
  | hf i m => intro ic buf; simp only [formatAcc_foreign]; exact bufExt_refl buf
  | hn i k m cause fl cl f l ih =>
    intro ic buf
    cases cause with
    | none =>
      rw [formatAcc_node_none]
      exact selfBlock_ext a ic buf k m fl cl f l
    | some c =>
      cases c with
      | foreignE j cmsg =>
        rw [formatAcc_node_causeForeign]
        exact bufExt_trans (selfBlock_ext a ic buf k m fl cl f l)
          (bufExt_trans (causedByMark_ext a _)
            (bufExt_trans (padS_ext _ ": ") (bufExt_append _ cmsg)))
      | nodeE ci ck cm cc cfl ccl cf cln =>
        rw [formatAcc_node_causeNode]
        exact bufExt_trans (selfBlock_ext a ic buf k m fl cl f l)
          (bufExt_trans (causedByMark_ext a _) (ih _ rfl true _))

@[simp] theorem allMsgs_foreign (i : Nat) (m : String) : allMsgs (.foreignE i m) = [m] := by
  simp [allMsgs]

@[simp] theorem allMsgs_node_none (i : Nat) (k m : String) (fl : Option FieldMap)
    (cl f : String) (l : Nat) : allMsgs (.nodeE i k m none fl cl f l) = [m] := by
  simp [allMsgs]

@[simp] theorem allMsgs_node_some (i : Nat) (k m : String) (c : Err) (fl : Option FieldMap)
    (cl f : String) (l : Nat) :
    allMsgs (.nodeE i k m (some c) fl cl f l) = m :: allMsgs c := by
  simp [allMsgs]

theorem formatAcc_contains (e : Err) :
    Err.isNode e = true → ∀ (ic : Bool) (buf : String) (s : String),
      s ∈ allMsgs e → containsStr (formatAcc true ic buf e) s := by
  induction e using err_chain_ind with
  | hf i m => intro h; simp [Err.isNode] at h
  | hn i k m cause fl cl f l ih =>
    intro _ ic buf s hs
    cases cause with
    | none =>
      rw [formatAcc_node_none]
      simp only [allMsgs_node_none, List.mem_singleton] at hs
      subst hs
      exact selfBlock_contains_message true ic buf k s fl cl f l
    | some c =>
      cases c with
      | foreignE j cmsg =>
        rw [formatAcc_node_causeForeign]
        simp only [allMsgs_node_some, allMsgs_foreign, List.mem_cons,
          List.not_mem_nil, or_false] at hs
        rcases hs with hs | hs
        · subst hs
          refine containsStr_append_left cmsg ?_
          exact bufExt_contains (bufExt_trans (causedByMark_ext true _) (padS_ext _ ": "))
            (selfBlock_contains_message true ic buf k s fl cl f l)
        · subst hs
          exact containsStr_append_self _ s
      | nodeE ci ck cm cc cfl ccl cf cln =>
        rw [formatAcc_node_causeNode]
        simp only [allMsgs_node_some, List.mem_cons] at hs
        rcases hs with hs | hs
        · subst hs
          exact bufExt_contains (formatAcc_ext true _ true _)
            (bufExt_contains (causedByMark_ext true _)
              (selfBlock_contains_message true ic buf k s fl cl f l))
        · exact ih _ rfl rfl true _ s hs

/-! ### `Fatal` lemmas -/

theorem newError_single_arg (s c : Nat) (e : Err) :
    newError s c [argOfErr e] =
      .ok (.nodeE s "" "" (some (shallowCopy c e)) none "" "" 0) := by
  cases e <;> rfl

theorem allMsgs_shallowCopy (c : Nat) (e : Err) : allMsgs (shallowCopy c e) = allMsgs e := by
  cases e with
  | foreignE i m => rfl
  | nodeE i k m cc fl cl f l => cases cc <;> simp [shallowCopy]

/-- The node whose resolved message and verbose rendering make up the
panic payload of `Fatal`: the original node itself when the freshly
captured call site duplicates its own, otherwise the fresh wrapper
node. -/
def fatalWrapped (s c : Nat) (cs : CallSite) (e : Err) : Err :=
  match e with
  | .nodeE i k m cc fl cl f l =>
    if f = cs.file ∧ l = cs.line ∧ cl = cs.caller then .nodeE i k m cc fl cl f l
    else setCallSite cs (.nodeE s "" "" (some (shallowCopy c (.nodeE i k m cc fl cl f l))) none "" "" 0)
  | .foreignE i m =>
    setCallSite cs (.nodeE s "" "" (some (shallowCopy c (.foreignE i m))) none "" "" 0)

theorem Fatal_some_eq (s c : Nat) (cs : CallSite) (e : Err) :
    Fatal s c cs (some e) =
      some ("fatal error: " ++ Message (some (fatalWrapped s c cs e)) ++ "\n\n"
        ++ verboseStr (fatalWrapped s c cs e)) := by
  cases e with
  | nodeE i k m cc fl cl f l =>
    simp only [Fatal, newError_single_arg, fatalWrapped]
  | foreignE i m =>
    simp only [Fatal, newError_single_arg, fatalWrapped]

theorem fatalWrapped_isNode (s c : Nat) (cs : CallSite) (e : Err) :
    (fatalWrapped s c cs e).isNode = true := by
  cases e with
  | nodeE i k m cc fl cl f l =>
    simp only [fatalWrapped]
    by_cases h : f = cs.file ∧ l = cs.line ∧ cl = cs.caller
    · rw [if_pos h]; rfl
    · rw [if_neg h]; rfl
  | foreignE i m => rfl

theorem fatalWrapped_msgs (s c : Nat) (cs : CallSite) (e : Err) (m' : String)
    (h : m' ∈ allMsgs e) : m' ∈ allMsgs (fatalWrapped s c cs e) := by
  cases e with
  | nodeE i k m cc fl cl f l =>
    simp only [fatalWrapped]
    by_cases hd : f = cs.file ∧ l = cs.line ∧ cl = cs.caller
    · rw [if_pos hd]; exact h
    · rw [if_neg hd]
      simp only [setCallSite, allMsgs_node_some, allMsgs_shallowCopy]
      exact List.mem_cons_of_mem _ h
  | foreignE i m =>
    simp only [fatalWrapped, setCallSite, shallowCopy, allMsgs_node_some]
    exact List.mem_cons_of_mem _ h

/-! ### Constructor structure lemmas (shallow copy, `Wrap`) -/

theorem buildArgs_append (c : Nat) (xs ys : List Arg) :
    ∀ e, buildArgs c e (xs ++ ys) =
      (match buildArgs c e xs with
       | .ok e' => buildArgs c e' ys
       | .error s => .error s) := by
  induction xs with
  | nil => intro e; simp [buildArgs]
  | cons a rest ih =>
    intro e
    simp only [List.cons_append, buildArgs]
    cases happ : applyArg c e a with
    | error s => simp
    | ok e' => simp [ih e']

theorem applyArg_isNode (c : Nat) (a : Arg) (e e' : Err)
    (h : applyArg c e a = .ok e') : e'.isNode = e.isNode := by
  cases a with
  | kindA k =>
    cases e <;> (simp only [applyArg, Except.ok.injEq] at h; subst h; rfl)
  | strA s =>
    cases e <;> (simp only [applyArg, Except.ok.injEq] at h; subst h; rfl)
  | nodeA v =>
    cases v with
    | none => simp [applyArg] at h
    | some w =>
      cases e <;> (simp only [applyArg, Except.ok.injEq] at h; subst h; rfl)
  | errA i m =>
    cases e <;> (simp only [applyArg, Except.ok.injEq] at h; subst h; rfl)
  | mapA f =>
    cases e <;> (simp only [applyArg, Except.ok.injEq] at h; subst h; rfl)
  | otherA => simp [applyArg] at h

theorem buildArgs_isNode (c : Nat) (args : List Arg) :
    ∀ e e', buildArgs c e args = .ok e' → e'.isNode = e.isNode := by
  induction args with
  | nil =>
    intro e e' h
    simp [buildArgs] at h
    subst h
    rfl
  | cons a rest ih =>
    intro e e' h
    simp only [buildArgs] at h
    cases happ : applyArg c e a with
    | error s => rw [happ] at h; simp at h
    | ok e1 =>
      rw [happ] at h
      rw [ih e1 e' h, applyArg_isNode c a e e1 happ]

theorem setCallSite_causeOf (cs : CallSite) (e : Err) :
    (setCallSite cs e).causeOf = e.causeOf := by
  cases e <;> rfl

theorem applyArg_nodeA_causeOf (c : Nat) (e v e' : Err) (he : e.isNode = true)
    (h : applyArg c e (Arg.nodeA (some v)) = .ok e') :
    e'.causeOf = some (shallowCopy c v) := by
  cases e with
  | foreignE i m => simp [Err.isNode] at he
  | nodeE i k m cc fl cl f l =>
    simp only [applyArg, Except.ok.injEq] at h
    rw [← h]
    rfl

/-! ### `WithFields` partial-mutation lemmas -/

/-- The receiver state after the first `i` pairs of `kvs` have been
attached (describes the state `WithFields` leaves behind when it
panics part-way through its loop). -/
def attachFirstPairs (e : Err) : Nat → List GoVal → Err
  | 0, _ => e
  | Nat.succ n, GoVal.str k :: v :: rest => attachFirstPairs (withFieldE e k v) n rest
  | Nat.succ _, _ => e

theorem attachPairs_panic_at :
    ∀ (i : Nat) (kvs : List GoVal) (e : Err) (idx : Nat),
      kvs.length % 2 = 0 →
      2 * i < kvs.length →
      (∀ j, j < i → (kvs.getD (2 * j) (GoVal.str "")).isStr = true) →
      (kvs.getD (2 * i) (GoVal.str "")).isStr = false →
      attachPairs e idx kvs = .error (errMsgBadKey (idx + 2 * i), attachFirstPairs e i kvs) := by
  intro i
  induction i with
  | zero =>
    intro kvs e idx heven hlt _ hbad
    match kvs, heven, hlt with
    | [], _, hlt => simp at hlt
    | [x], heven, _ => simp at heven
    | k :: v :: rest, _, _ =>
      cases k with
      | str s => simp [List.getD_cons_zero, GoVal.isStr] at hbad
      | int n =>
        have : attachPairs e idx (GoVal.int n :: v :: rest) = .error (errMsgBadKey idx, e) := by
          simp [attachPairs]
        rw [this]
        simp [attachFirstPairs]
  | succ n ih =>
    intro kvs e idx heven hlt hstr hbad
    match kvs, heven, hlt, hstr, hbad with
    | [], _, hlt, _, _ => simp at hlt
    | [x], heven, _, _, _ => simp at heven
    | k :: v :: rest, heven, hlt, hstr, hbad =>
      have hk : k.isStr = true := by
        simpa [List.getD_cons_zero] using hstr 0 (Nat.succ_pos n)
      cases k with
      | int m => simp [GoVal.isStr] at hk
      | str s =>
        have hred : attachPairs e idx (GoVal.str s :: v :: rest)
            = attachPairs (withFieldE e s v) (idx + 2) rest := by
          simp [attachPairs]
        have heven' : rest.length % 2 = 0 := by
          simp only [List.length_cons] at heven
          omega
        have hlt' : 2 * n < rest.length := by
          simp only [List.length_cons] at hlt
          omega
        have hstr' : ∀ j, j < n → (rest.getD (2 * j) (GoVal.str "")).isStr = true := by
          intro j hj
          have := hstr (j + 1) (Nat.succ_lt_succ hj)
          have harith : 2 * (j + 1) = 2 * j + 1 + 1 := by omega
          rw [harith] at this
          simpa [List.getD_cons_succ] using this
        have hbad' : (rest.getD (2 * n) (GoVal.str "")).isStr = false := by
          have harith : 2 * (n + 1) = 2 * n + 1 + 1 := by omega
          rw [harith] at hbad
          simpa [List.getD_cons_succ] using hbad
        rw [hred, ih rest (withFieldE e s v) (idx + 2) heven' hlt' hstr' hbad']
        have harith2 : idx + 2 + 2 * n = idx + 2 * (n + 1) := by omega
        rw [harith2]
        rfl

theorem withFieldE_fieldsOf_ne (e : Err) (k : String) (v : GoVal)
    (h : e.fieldsOf ≠ none) : (withFieldE e k v).fieldsOf ≠ none := by
  cases e with
  | nodeE i kd m c fl cl f l => simp [withFieldE, Err.fieldsOf]
  | foreignE i m => exact absurd rfl h

theorem attachFirstPairs_fieldsOf_ne :
    ∀ (i : Nat) (kvs : List GoVal) (e : Err), e.fieldsOf ≠ none →
      (attachFirstPairs e i kvs).fieldsOf ≠ none := by
  intro i
  induction i with
  | zero => intro kvs e h; exact h
  | succ n ih =>
    intro kvs e h
    match kvs with
    | [] => exact h
    | GoVal.str k :: v :: rest =>
      exact ih rest (withFieldE e k v) (withFieldE_fieldsOf_ne e k v h)
    | GoVal.int m :: v :: rest => exact h
    | [x] =>
      cases x with
      | str s => exact h
      | int m => exact h

theorem ensureFields_fieldsOf (i : Nat) (k m : String) (c : Option Err)
    (fl : Option FieldMap) (cl f : String) (l : Nat) :
    (ensureFields (.nodeE i k m c fl cl f l)).fieldsOf = some (fl.getD []) := rfl

/-! ### Example values used by witnesses and counterexamples -/

/-- Example root node carrying fields `foo ↦ "qux"`, `baz ↦ 1`. -/
def exRoot : Err :=
  .nodeE 1 "k1" "inner msg" none (some [("foo", .str "qux"), ("baz", .int 1)]) "c1" "f1" 10

/-- Example two-node chain whose head overrides `foo` with `"bar"`. -/
def exChain : Err :=
  .nodeE 2 "k2" "" (some exRoot) (some [("foo", .str "bar")]) "c2" "f2" 20

/-- Example node used as a `Wrap` cause. -/
def exOrig : Err := .nodeE 0 "k" "m" none none "a" "b" 2

/-- The node `Wrap 5 6 ⟨"f","g",1⟩ (some exOrig) []` builds. -/
def exWrapped : Err :=
  .nodeE 5 "" "" (some (.nodeE 6 "k" "m" none none "a" "b" 2)) none "f" "g" 1

/-- Example receiver for `WithFields`. -/
def exRecv : Err := .nodeE 3 "" "" none none "" "" 0

/-- Example `WithFields` argument list whose second key (index 2) is
not a string. -/
def exKvs : List GoVal := [GoVal.str "a", GoVal.int 1, GoVal.int 5, GoVal.int 2]

/-- Example node carrying the message `"hello"`. -/
def exMsgErr : Err := .nodeE 0 "k" "hello" none none "a" "b" 2

/-! ### The claims -/

/-- C1: `Fields` merges the field maps of all nodes of a chain into one
mapping in which, for any key, the value kept is the one from the node
closest to the chain head (`chainFirst`); `Fields` of nil, and of a
chain in which no node carries a fields map, are both nil rather than
an empty map. Per-node maps are assumed duplicate-key-free, as every Go
map is. -/
theorem claim_C1 :
    Fields none = none ∧
    ∀ e, chainFieldsNodup e →
      ((∀ k, optGet (Fields (some e)) k = chainFirst e k) ∧
       (Fields (some e) = none ↔ noFieldMapsB e = true)) := by
  refine ⟨rfl, fun e hnd => ⟨fun k => ?_, ?_⟩⟩
  · simpa [Fields] using fieldsE_lookup e hnd k
  · simpa [Fields] using fieldsE_none_iff e

/-- Witness for C1 at the concrete two-node chain `exChain`. -/
theorem claim_C1_witness :
    (∀ k, optGet (Fields (some exChain)) k = chainFirst exChain k) ∧
    (Fields (some exChain) = none ↔ noFieldMapsB exChain = true) :=
  claim_C1.2 exChain (by decide)

/-- The matching relation claim C2 asserts, read literally: a node
matches a kind or string candidate whose text equals its kind, or a
non-kind/non-string candidate equal to its cause. (Defined from the
claim's words, to be compared against `Is`.) -/
def specC2match (e : Err) (args : List IsArg) : Bool :=
  (chainNodes e).any fun n => args.any fun a =>
    match a with
    | .kindA t => n.kindOf == t
    | .strA s => n.kindOf == s
    | .otherA v => causeBeq n.causeOf v

/-- C2 counterexample: on a node of kind `"boom"` with the single
candidate the plain string `"boom"`, the claim's iff demands `true`,
but `Is` returns `false`: inside the `case Kind, string` branch the
candidate keeps the switch operand's type `interface{}`, and a value of
dynamic type `string` is never `==` to the `Kind`-typed field. -/
theorem claim_C2_counterexample :
    Is (some (.nodeE 0 "boom" "" none none "" "" 0)) [IsArg.strA "boom"] = false ∧
    specC2match (.nodeE 0 "boom" "" none none "" "" 0) [IsArg.strA "boom"] = true := by
  constructor <;> rfl

/-- C2 (amended): `Is(nil, ...)` is false; `Is(err, args)` is true iff
some node of the chain (`chainNodes`, which stops at the first foreign
cause) has a kind equal to some candidate of type `Kind` — a plain
`string` candidate never matches anything — or some non-kind/non-string
candidate is Go-equal (reference-identical) to some node's cause. All
candidates are checked at each node before the traversal descends;
since the result is a single boolean this order is captured by the
iff. -/
theorem claim_C2 :
    (∀ args, Is none args = false) ∧
    ∀ e args, Is (some e) args = true ↔
      ∃ n ∈ chainNodes e, ∃ a ∈ args,
        ((∃ t, a = IsArg.kindA t ∧ n.kindOf = t) ∨
         (∃ v, a = IsArg.otherA v ∧ causeBeq n.causeOf v = true)) := by
  refine ⟨fun args => rfl, fun e args => ?_⟩
  simpa [Is] using isE_iff e args

/-- C3 counterexample: the claim says a node with empty kind matches no
kind tag, the empty tag included — but `Is` with the empty `Kind` tag
on an empty-kind node returns `true` (`"" == ""`). -/
theorem claim_C3_counterexample :
    Is (some (.nodeE 0 "" "" none none "" "" 0)) [IsArg.kindA ""] = true := by rfl

/-- C3 (amended): a node with empty kind never matches a non-empty kind
tag nor any string candidate, but the empty `Kind` tag does match it —
an empty kind is not a wildcard, yet it is an ordinary value for
equality. -/
theorem claim_C3 :
    (∀ i m fl cl f l t, t ≠ "" →
      Is (some (.nodeE i "" m none fl cl f l)) [IsArg.kindA t] = false) ∧
    (∀ i m fl cl f l s,
      Is (some (.nodeE i "" m none fl cl f l)) [IsArg.strA s] = false) ∧
    (∀ i m fl cl f l,
      Is (some (.nodeE i "" m none fl cl f l)) [IsArg.kindA ""] = true) := by
  refine ⟨?_, ?_, ?_⟩
  · intro i m fl cl f l t ht
    have h' : ¬("" = t) := fun hh => ht hh.symm
    simp [Is, isE_node_none, isArgMatch, h']
  · intro i m fl cl f l s
    simp [Is, isE_node_none, isArgMatch]
  · intro i m fl cl f l
    simp [Is, isE_node_none, isArgMatch]

/-- Witness for C3 at a concrete empty-kind node and non-empty tag. -/
theorem claim_C3_witness :
    Is (some (.nodeE 7 "" "mw" none none "" "" 0)) [IsArg.kindA "tag"] = false :=
  claim_C3.1 7 "mw" none "" "" 0 "tag" (by decide)

/-- C4: for a non-nil error, `Message` returns the first non-empty
message found walking the node chain from head toward root, and the
fixed fallback string when no node carries one (also when the value is
foreign and the chain is empty); `Message nil` is the empty string, not
the fallback. -/
theorem claim_C4 :
    Message none = "" ∧
    ∀ e, Message (some e) =
      (((chainNodes e).map Err.messageOf).find? (fun s => s != "")).getD fallbackMsg := by
  refine ⟨rfl, fun e => ?_⟩
  simpa [Message] using messageE_spec e

/-- C5: `Stack nil` is the empty (never nil) slice; for a non-nil
error, `Stack` is exactly one frame per chain node in head-first order
followed by one message-only frame when the chain terminates in a
foreign error, so its length is the number of node links plus one for a
foreign root. -/
theorem claim_C5 :
    Stack none = [] ∧
    (∀ e, Stack (some e) =
      (chainNodes e).map nodeFrame ++
        (match foreignRoot e with
         | some m => [foreignFrame m]
         | none => [])) ∧
    (∀ e, (Stack (some e)).length =
      (chainNodes e).length + (if (foreignRoot e).isSome then 1 else 0)) := by
  refine ⟨rfl, fun e => by simpa [Stack] using stackE_spec e, fun e => ?_⟩
  have h := stackE_spec e
  rw [show Stack (some e) = stackE e from rfl, h]
  cases hf : foreignRoot e <;> simp

/-- C6: `Wrap` of a nil cause returns nil without being fatal (an
ordinary `ok none`, never a panic), and `Wrap` of a non-nil cause is
exactly `New` applied to the argument list with the cause appended
last — both then stamp the same captured call site. -/
theorem claim_C6 :
    (∀ s c cs args, Wrap s c cs none args = Except.ok none) ∧
    (∀ s c cs e args,
      Wrap s c cs (some e) args = (New s c cs (args ++ [argOfErr e])).map some) :=
  ⟨fun _ _ _ _ => rfl, fun _ _ _ _ _ => rfl⟩

/-- C7: the constructor panics exactly on a programmer error: `New`
with zero arguments, an argument of unrecognized type, or a nil
`*Error` among the variadic arguments; and `WithFields` panics exactly
on an odd-length argument list or a non-string value in a key (even)
position. -/
theorem claim_C7 :
    (∀ s c, isErrorB (newError s c []) = true) ∧
    (∀ s c args, isErrorB (newError s c args) = true ↔
      (args = [] ∨ ∃ a ∈ args, a = Arg.otherA ∨ a = Arg.nodeA none)) ∧
    (∀ e kvs, isErrorB (WithFields e kvs) = true ↔
      (kvs.length % 2 = 1 ∨
       ∃ j, j < kvs.length ∧ j % 2 = 0 ∧ (kvs.getD j (GoVal.str "")).isStr = false)) := by
  refine ⟨fun s c => rfl, fun s c args => ?_, withFields_isError_iff⟩
  simpa [badArg] using newError_isError_iff s c args

/-- C8: `Fatal nil` returns without terminating; `Fatal` of a non-nil
error always panics, and its payload — the resolved message followed by
the verbose rendering of the chain — textually contains every message
stored along the chain. -/
theorem claim_C8 :
    (∀ s c cs, Fatal s c cs none = none) ∧
    (∀ s c cs e m', m' ∈ allMsgs e →
      ∃ pay, Fatal s c cs (some e) = some pay ∧ containsStr pay m') := by
  constructor
  · intro s c cs; rfl
  · intro s c cs e m' hm'
    refine ⟨_, Fatal_some_eq s c cs e, ?_⟩
    apply containsStr_append_right
    exact formatAcc_contains (fatalWrapped s c cs e) (fatalWrapped_isNode s c cs e)
      false "" m' (fatalWrapped_msgs s c cs e m' hm')

/-- Witness for C8 at a concrete one-node chain with message
`"hello"`. -/
theorem claim_C8_witness :
    ∃ pay, Fatal 5 6 (CallSite.mk "x" "y" 1) (some exMsgErr) = some pay ∧
      containsStr pay "hello" :=
  claim_C8.2 5 6 (CallSite.mk "x" "y" 1) exMsgErr "hello" (by simp [exMsgErr])

/-- C9: wrapping stores a shallow duplicate of a `*Error` cause: the
new error's cause slot holds `shallowCopy`, a node at a fresh address
whose kind, message, cause, fields-map reference and call-site data all
equal the original's, and which is a distinct value whenever its
address is fresh — so later mutation of the original's scalar fields
cannot reach the already-wrapped chain, while the fields map stays
shared. -/
theorem claim_C9 (s c : Nat) (cs : CallSite) (args : List Arg) (e w : Err)
    (he : e.isNode = true)
    (hw : Wrap s c cs (some e) args = .ok (some w)) :
    w.causeOf = some (shallowCopy c e) ∧
    (shallowCopy c e).kindOf = e.kindOf ∧
    (shallowCopy c e).messageOf = e.messageOf ∧
    (shallowCopy c e).causeOf = e.causeOf ∧
    (shallowCopy c e).fieldsOf = e.fieldsOf ∧
    (shallowCopy c e).callerOf = e.callerOf ∧
    (shallowCopy c e).fileOf = e.fileOf ∧
    (shallowCopy c e).lineOf = e.lineOf ∧
    (c ≠ e.idOf → shallowCopy c e ≠ e) := by
  have hargOf : argOfErr e = Arg.nodeA (some e) := by
    cases e with
    | nodeE i k m cc fl cl f l => rfl
    | foreignE i m => simp [Err.isNode] at he
  have hcause : w.causeOf = some (shallowCopy c e) := by
    simp only [Wrap] at hw
    cases hN : New s c cs (args ++ [argOfErr e]) with
    | error s' => rw [hN] at hw; simp [Except.map] at hw
    | ok w0 =>
      rw [hN] at hw
      simp only [Except.map, Except.ok.injEq, Option.some.injEq] at hw
      subst hw
      simp only [New] at hN
      cases hNE : newError s c (args ++ [argOfErr e]) with
      | error s' => rw [hNE] at hN; simp [Except.map] at hN
      | ok u =>
        rw [hNE] at hN
        simp only [Except.map, Except.ok.injEq] at hN
        have hlen : ¬((args ++ [argOfErr e]).length = 0) := by simp
        rw [newError, if_neg hlen, hargOf, buildArgs_append] at hNE
        cases hB : buildArgs c (.nodeE s "" "" none none "" "" 0) args with
        | error s2 => rw [hB] at hNE; simp at hNE
        | ok e1 =>
          rw [hB] at hNE
          have hnode1 : e1.isNode = true := by
            have h0 := buildArgs_isNode c args _ e1 hB
            simpa [Err.isNode] using h0
          simp only [buildArgs] at hNE
          cases hA : applyArg c e1 (Arg.nodeA (some e)) with
          | error s2 => rw [hA] at hNE; simp at hNE
          | ok e2 =>
            rw [hA] at hNE
            simp only [buildArgs, Except.ok.injEq] at hNE
            subst hNE
            rw [← hN, setCallSite_causeOf]
            exact applyArg_nodeA_causeOf c e1 e e2 hnode1 hA
  cases e with
  | foreignE i m => simp [Err.isNode] at he
  | nodeE i k m cc fl cl f l =>
    refine ⟨hcause, rfl, rfl, rfl, rfl, rfl, rfl, rfl, ?_⟩
    intro hne heq
    have hid := congrArg Err.idOf heq
    simp only [shallowCopy, Err.idOf] at hid
    exact hne hid

/-- Witness for C9: wrapping `exOrig` with no extra arguments yields
`exWrapped`, whose cause slot is the shallow duplicate at address 6. -/
theorem claim_C9_witness :
    exWrapped.causeOf = some (shallowCopy 6 exOrig) ∧
    (shallowCopy 6 exOrig).kindOf = exOrig.kindOf ∧
    (shallowCopy 6 exOrig).messageOf = exOrig.messageOf ∧
    (shallowCopy 6 exOrig).causeOf = exOrig.causeOf ∧
    (shallowCopy 6 exOrig).fieldsOf = exOrig.fieldsOf ∧
    (shallowCopy 6 exOrig).callerOf = exOrig.callerOf ∧
    (shallowCopy 6 exOrig).fileOf = exOrig.fileOf ∧
    (shallowCopy 6 exOrig).lineOf = exOrig.lineOf ∧
    (6 ≠ exOrig.idOf → shallowCopy 6 exOrig ≠ exOrig) :=
  claim_C9 5 6 (CallSite.mk "f" "g" 1) [] exOrig exWrapped rfl rfl

/-- C10: `WithFields` is not atomic on a programmer error — when the
first non-string key sits at index `2·i` with `i > 0` of an even-length
list, the call panics, but the panic-time receiver state already has
its field map allocated and every pair before index `2·i` attached. -/
theorem claim_C10 (e : Err) (kvs : List GoVal) (i : Nat)
    (hnode : e.isNode = true)
    (heven : kvs.length % 2 = 0)
    (hpos : 0 < i)
    (hlt : 2 * i < kvs.length)
    (hstr : ∀ j, j < i → (kvs.getD (2 * j) (GoVal.str "")).isStr = true)
    (hbad : (kvs.getD (2 * i) (GoVal.str "")).isStr = false) :
    WithFields e kvs = .error (errMsgBadKey (2 * i), attachFirstPairs (ensureFields e) i kvs) ∧
    (attachFirstPairs (ensureFields e) i kvs).fieldsOf ≠ none := by
  constructor
  · simp only [WithFields]
    rw [if_neg (fun hc => hc heven)]
    have h := attachPairs_panic_at i kvs (ensureFields e) 0 heven hlt hstr hbad
    simpa using h
  · apply attachFirstPairs_fieldsOf_ne
    cases e with
    | foreignE i' m => simp [Err.isNode] at hnode
    | nodeE i' k m c fl cl f l => simp [ensureFields, Err.fieldsOf]

/-- Witness for C10: a four-element list whose second key (index 2) is
an int; the panic payload shows the first pair already attached and the
map allocated. -/
theorem claim_C10_witness :
    WithFields exRecv exKvs =
      .error (errMsgBadKey 2, attachFirstPairs (ensureFields exRecv) 1 exKvs) ∧
    (attachFirstPairs (ensureFields exRecv) 1 exKvs).fieldsOf ≠ none :=
  claim_C10 exRecv exKvs 1 rfl (by decide) (by decide) (by decide) (by decide) (by decide)

end GoErrors
